import Mathlib

/-! Reflection invocation flags and the compression entry-point table.

A shallow embedding of

* `src/coreclr/vm/reflectioninvocation.h`: the `BINDER_` option constants and
  the two lookup presets, as natural numbers combined with `|||`;
* `src/libraries/Native/AnyOS/System.IO.Compression.Native/entrypoints.c`:
  the table `s_compressionNative` and `CompressionResolveDllImport`.

The operations the header only declares (`Enum_GetValuesAndNames`,
`ReflectionInvocation_RunClassConstructor`) are modelled from the
specification and marked as such.
-/

namespace ReflectionInvocation

/-! ## The `BINDER_` constants (reflectioninvocation.h, lines 18-43) -/

def BINDER_IgnoreCase : Nat := 0x01
def BINDER_DeclaredOnly : Nat := 0x02
def BINDER_Instance : Nat := 0x04
def BINDER_Static : Nat := 0x08
def BINDER_Public : Nat := 0x10
def BINDER_NonPublic : Nat := 0x20
def BINDER_FlattenHierarchy : Nat := 0x40

def BINDER_InvokeMethod : Nat := 0x00100
def BINDER_CreateInstance : Nat := 0x00200
def BINDER_GetField : Nat := 0x00400
def BINDER_SetField : Nat := 0x00800
def BINDER_GetProperty : Nat := 0x01000
def BINDER_SetProperty : Nat := 0x02000
def BINDER_PutDispProperty : Nat := 0x04000
def BINDER_PutRefDispProperty : Nat := 0x08000

def BINDER_ExactBinding : Nat := 0x010000
def BINDER_SuppressChangeType : Nat := 0x020000
def BINDER_OptionalParamBinding : Nat := 0x040000

def BINDER_IgnoreReturn : Nat := 0x1000000
def BINDER_DoNotWrapExceptions : Nat := 0x2000000

def BINDER_DefaultLookup : Nat :=
  BINDER_Instance ||| BINDER_Static ||| BINDER_Public

def BINDER_AllLookup : Nat :=
  BINDER_Instance ||| BINDER_Static ||| BINDER_Public ||| BINDER_Instance

/-- The twenty option constants, by name, in the order the header defines them. -/
inductive BinderOption where
  | IgnoreCase
  | DeclaredOnly
  | Instance
  | Static
  | Public
  | NonPublic
  | FlattenHierarchy
  | InvokeMethod
  | CreateInstance
  | GetField
  | SetField
  | GetProperty
  | SetProperty
  | PutDispProperty
  | PutRefDispProperty
  | ExactBinding
  | SuppressChangeType
  | OptionalParamBinding
  | IgnoreReturn
  | DoNotWrapExceptions
  deriving DecidableEq, Repr, Fintype

/-- The constant the header gives each option. -/
def BinderOption.value : BinderOption → Nat
  | .IgnoreCase => BINDER_IgnoreCase
  | .DeclaredOnly => BINDER_DeclaredOnly
  | .Instance => BINDER_Instance
  | .Static => BINDER_Static
  | .Public => BINDER_Public
  | .NonPublic => BINDER_NonPublic
  | .FlattenHierarchy => BINDER_FlattenHierarchy
  | .InvokeMethod => BINDER_InvokeMethod
  | .CreateInstance => BINDER_CreateInstance
  | .GetField => BINDER_GetField
  | .SetField => BINDER_SetField
  | .GetProperty => BINDER_GetProperty
  | .SetProperty => BINDER_SetProperty
  | .PutDispProperty => BINDER_PutDispProperty
  | .PutRefDispProperty => BINDER_PutRefDispProperty
  | .ExactBinding => BINDER_ExactBinding
  | .SuppressChangeType => BINDER_SuppressChangeType
  | .OptionalParamBinding => BINDER_OptionalParamBinding
  | .IgnoreReturn => BINDER_IgnoreReturn
  | .DoNotWrapExceptions => BINDER_DoNotWrapExceptions

/-- Position of the single bit of each option constant. -/
def BinderOption.bit : BinderOption → Nat
  | .IgnoreCase => 0
  | .DeclaredOnly => 1
  | .Instance => 2
  | .Static => 3
  | .Public => 4
  | .NonPublic => 5
  | .FlattenHierarchy => 6
  | .InvokeMethod => 8
  | .CreateInstance => 9
  | .GetField => 10
  | .SetField => 11
  | .GetProperty => 12
  | .SetProperty => 13
  | .PutDispProperty => 14
  | .PutRefDispProperty => 15
  | .ExactBinding => 16
  | .SuppressChangeType => 17
  | .OptionalParamBinding => 18
  | .IgnoreReturn => 24
  | .DoNotWrapExceptions => 25

/-- All twenty options, in header order. -/
def allBinderOptions : List BinderOption :=
  [.IgnoreCase, .DeclaredOnly, .Instance, .Static, .Public, .NonPublic,
   .FlattenHierarchy, .InvokeMethod, .CreateInstance, .GetField, .SetField,
   .GetProperty, .SetProperty, .PutDispProperty, .PutRefDispProperty,
   .ExactBinding, .SuppressChangeType, .OptionalParamBinding, .IgnoreReturn,
   .DoNotWrapExceptions]

/-- The integer a set of options is passed as: the bitwise OR of its constants. -/
def encode (S : Finset BinderOption) : Nat :=
  S.fold (· ||| ·) 0 BinderOption.value

/-- Whether configuration `n` has option constant `o` set, the C test `(n & o) != 0`. -/
def hasFlag (n o : Nat) : Bool := (n &&& o) != 0

/-- The value of a 32-bit pattern read as the signed `INT32` parameter `invokeAttr`. -/
def toINT32 (n : Nat) : Int :=
  if n % 2 ^ 32 < 2 ^ 31 then ((n % 2 ^ 32 : Nat) : Int) else ((n % 2 ^ 32 : Nat) : Int) - 2 ^ 32

/-! ## The enum extractor (declared at reflectioninvocation.h, line 90) -/

/-- One named constant of an enumeration: its underlying integer value and its name. -/
structure EnumEntry where
  value : Int
  name : String
  deriving DecidableEq, Repr

/-- Modelled from the spec: the ordering step of `Enum_GetValuesAndNames`, whose body the
header does not contain. Places `e` in an ascending sequence before the first entry whose
value is not smaller, so an entry declared earlier stays ahead of later entries of equal
value. -/
def insertEntry (e : EnumEntry) : List EnumEntry → List EnumEntry
  | [] => [e]
  | x :: xs => if e.value ≤ x.value then e :: x :: xs else x :: insertEntry e xs

/-- Modelled from the spec: the ordering step of `Enum_GetValuesAndNames`, whose body the
header does not contain. Sorts the declared entries ascending by value, ties in
declaration order. -/
def sortEntries : List EnumEntry → List EnumEntry
  | [] => []
  | e :: es => insertEntry e (sortEntries es)

/-- Modelled from the spec: the body of `Enum_GetValuesAndNames`, which the header only
declares. The enumeration type is given by its entries in declaration order; the result
is the out-parameter pair `pReturnValues`, `pReturnNames`: the values sorted ascending
(stable for equal values) and, only when `fGetNames` is set, the names in the same order. -/
def Enum_GetValuesAndNames (pEnumType : List EnumEntry) (fGetNames : Bool) :
    List Int × Option (List String) :=
  let sorted := sortEntries pEnumType
  (sorted.map EnumEntry.value, if fGetNames then some (sorted.map EnumEntry.name) else none)

/-- The (value, name) pairs a caller reads off the two returned sequences; no pairs when
the names were elided. -/
def returnedPairs (r : List Int × Option (List String)) : List EnumEntry :=
  match r.2 with
  | some names => List.zipWith EnumEntry.mk r.1 names
  | none => []

/-- A sequence of entries is ascending by underlying value. -/
def AscendingByValue (l : List EnumEntry) : Prop :=
  l.Pairwise (fun a b => a.value ≤ b.value)

/-- The entries of `l` with underlying value `v`, in the order they occur in `l`. -/
def entriesWithValue (v : Int) (l : List EnumEntry) : List EnumEntry :=
  l.filter (fun e => e.value = v)

/-! ## The initialization coordinator (declared at reflectioninvocation.h, line 56) -/

abbrev ThreadId := Nat

abbrev Cause := String

/-- Per-type initialization state. -/
inductive TypeInitState where
  | NotStarted
  | InProgress (owner : ThreadId)
  | Done
  | Failed (cause : Cause)
  deriving DecidableEq, Repr

/-- The control block of a type: its initialization state and a count of how many times
its static initializer has been executed. -/
structure TypeControlBlock where
  state : TypeInitState
  initializerRuns : Nat
  deriving DecidableEq, Repr

/-- What a call of `EnsureInitialized` reports to its caller. -/
inductive InitOutcome where
  | Initialized
  | TypeInitializationFailed (cause : Cause)
  | Blocked (owner : ThreadId)
  deriving DecidableEq, Repr

/-- A static initializer: run on the control block claimed by the calling thread, it
either completes or fails with a cause. -/
abbrev StaticInitializer := TypeControlBlock → Except Cause Unit

/-- Modelled from the spec: the operation `EnsureInitialized` of the initialization
coordinator, whose code is not in the header. `Done` returns at once; `NotStarted`
claims `InProgress` for the caller and runs the initializer once, ending in `Done` or in
`Failed` with the error propagated; `InProgress` of the same thread proceeds, of another
thread blocks; `Failed` fails at once with the sticky error and never retries. -/
def EnsureInitialized (caller : ThreadId) (initializer : StaticInitializer)
    (cb : TypeControlBlock) : TypeControlBlock × InitOutcome :=
  match cb.state with
  | .Done => (cb, .Initialized)
  | .NotStarted =>
    match initializer { cb with state := .InProgress caller } with
    | .ok _ =>
      ({ state := .Done, initializerRuns := cb.initializerRuns + 1 }, .Initialized)
    | .error cause =>
      ({ state := .Failed cause, initializerRuns := cb.initializerRuns + 1 },
        .TypeInitializationFailed cause)
  | .InProgress owner =>
    if owner = caller then (cb, .Initialized) else (cb, .Blocked owner)
  | .Failed cause => (cb, .TypeInitializationFailed cause)

/-- Modelled from the spec: the body of `ReflectionInvocation_RunClassConstructor`, which
the header only declares: it ensures the type `pType` is initialized. -/
def ReflectionInvocation_RunClassConstructor (caller : ThreadId)
    (initializer : StaticInitializer) (pType : TypeControlBlock) :
    TypeControlBlock × InitOutcome :=
  EnsureInitialized caller initializer pType

/-- A sequence of calls on the same type, one after the other: the final control block
and what each call reported. -/
def runCalls (cb : TypeControlBlock) :
    List (ThreadId × StaticInitializer) → TypeControlBlock × List InitOutcome
  | [] => (cb, [])
  | (caller, initializer) :: rest =>
    let r := ReflectionInvocation_RunClassConstructor caller initializer cb
    let rs := runCalls r.1 rest
    (rs.1, r.2 :: rs.2)

end ReflectionInvocation

namespace CompressionNative

/-! ## The entry-point table (entrypoints.c) -/

/-- A `const void*` result: null, or the address of the native function `symbol`. -/
inductive FnPtr where
  | null
  | fn (symbol : String)
  deriving DecidableEq, Repr

/-- Modelled from the spec: the type `Entry` of `entrypoints.h`, which is not among the
sources: one row of a flat name-to-function-pointer table. -/
structure Entry where
  name : String
  method : FnPtr
  deriving DecidableEq, Repr

/-- Modelled from the spec: the helper `DllImportEntry` of `entrypoints.h`, which is not
among the sources: the row that maps the name of `impl` to the address of `impl`. -/
def DllImportEntry (impl : String) : Entry :=
  { name := impl, method := FnPtr.fn impl }

/-- The table `s_compressionNative` (entrypoints.c, lines 19-92). -/
def s_compressionNative : List Entry :=
  [
    DllImportEntry "BrotliDecoderCreateInstance",
    DllImportEntry "BrotliDecoderDecompress",
    DllImportEntry "BrotliDecoderDecompressStream",
    DllImportEntry "BrotliDecoderDestroyInstance",
    DllImportEntry "BrotliDecoderIsFinished",
    DllImportEntry "BrotliEncoderCompress",
    DllImportEntry "BrotliEncoderCompressStream",
    DllImportEntry "BrotliEncoderCreateInstance",
    DllImportEntry "BrotliEncoderDestroyInstance",
    DllImportEntry "BrotliEncoderHasMoreOutput",
    DllImportEntry "BrotliEncoderSetParameter",
    DllImportEntry "CompressionNative_Crc32",
    DllImportEntry "CompressionNative_Deflate",
    DllImportEntry "CompressionNative_DeflateEnd",
    DllImportEntry "CompressionNative_DeflateReset",
    DllImportEntry "CompressionNative_DeflateInit2_",
    DllImportEntry "CompressionNative_Inflate",
    DllImportEntry "CompressionNative_InflateEnd",
    DllImportEntry "CompressionNative_InflateReset",
    DllImportEntry "CompressionNative_InflateInit2_",
    DllImportEntry "ZDICT_trainFromBuffer",
    DllImportEntry "ZDICT_isError",
    DllImportEntry "ZDICT_getErrorName",
    DllImportEntry "ZSTD_compress",
    DllImportEntry "ZSTD_decompress",
    DllImportEntry "ZSTD_createCCtx",
    DllImportEntry "ZSTD_freeCCtx",
    DllImportEntry "ZSTD_createDCtx",
    DllImportEntry "ZSTD_freeDCtx",
    DllImportEntry "ZSTD_compressCCtx",
    DllImportEntry "ZSTD_decompressDCtx",
    DllImportEntry "ZSTD_compress2",
    DllImportEntry "ZSTD_createCDict",
    DllImportEntry "ZSTD_freeCDict",
    DllImportEntry "ZSTD_compress_usingCDict",
    DllImportEntry "ZSTD_createDDict",
    DllImportEntry "ZSTD_freeDDict",
    DllImportEntry "ZSTD_decompress_usingDDict",
    DllImportEntry "ZSTD_getDecompressedSize",
    DllImportEntry "ZSTD_getFrameContentSize",
    DllImportEntry "ZSTD_maxCLevel",
    DllImportEntry "ZSTD_minCLevel",
    DllImportEntry "ZSTD_defaultCLevel",
    DllImportEntry "ZSTD_compressBound",
    DllImportEntry "ZSTD_isError",
    DllImportEntry "ZSTD_getErrorName",
    -- Advanced APIs
    DllImportEntry "ZSTD_CCtx_reset",
    DllImportEntry "ZSTD_cParam_getBounds",
    DllImportEntry "ZSTD_CCtx_setParameter",
    DllImportEntry "ZSTD_DCtx_reset",
    DllImportEntry "ZSTD_dParam_getBounds",
    DllImportEntry "ZSTD_DCtx_setParameter",
    -- Streaming APIs
    DllImportEntry "ZSTD_createCStream",
    DllImportEntry "ZSTD_freeCStream",
    DllImportEntry "ZSTD_initCStream",
    DllImportEntry "ZSTD_compressStream",
    DllImportEntry "ZSTD_flushStream",
    DllImportEntry "ZSTD_endStream",
    DllImportEntry "ZSTD_CStreamInSize",
    DllImportEntry "ZSTD_CStreamOutSize",
    DllImportEntry "ZSTD_createDStream",
    DllImportEntry "ZSTD_freeDStream",
    DllImportEntry "ZSTD_initDStream",
    DllImportEntry "ZSTD_decompressStream",
    DllImportEntry "ZSTD_DStreamInSize",
    DllImportEntry "ZSTD_DStreamOutSize",
    DllImportEntry "ZSTD_compressStream2",
    DllImportEntry "ZSTD_CCtx_refCDict",
    DllImportEntry "ZSTD_DCtx_refDDict"
  ]

/-- Modelled from the spec: `lengthof` of `entrypoints.h`, the number of rows of a table. -/
def lengthof (table : List Entry) : Nat := table.length

/-- Modelled from the spec: `ResolveDllImport` of `entrypoints.h`, which is not among the
sources: a search of the first `tableLength` rows, in order, for the first row whose name
equals `name` exactly; its pointer is returned, or null when no row matches. -/
def ResolveDllImport : List Entry → Nat → String → FnPtr
  | [], _, _ => FnPtr.null
  | _ :: _, 0, _ => FnPtr.null
  | e :: rest, n + 1, name =>
    if name = e.name then e.method else ResolveDllImport rest n name

/-- `CompressionResolveDllImport` (entrypoints.c, lines 96-99). -/
def CompressionResolveDllImport (name : String) : FnPtr :=
  ResolveDllImport s_compressionNative (lengthof s_compressionNative) name

/-- The names listed in a table, in table order. -/
def tableNames (table : List Entry) : List String := table.map Entry.name

end CompressionNative

namespace ReflectionInvocation

/-! ## Helper lemmas on the flag encoding -/

theorem encode_empty : encode ∅ = 0 := by
  simp [encode]

theorem encode_insert (a : BinderOption) (S : Finset BinderOption) (h : a ∉ S) :
    encode (insert a S) = a.value ||| encode S := by
  simp [encode, Finset.fold_insert h]

theorem value_and_value (a o : BinderOption) : a.value &&& o.value ≠ 0 ↔ a = o := by
  cases a <;> cases o <;> decide

theorem lor_eq_zero_iff (x y : Nat) : x ||| y = 0 ↔ x = 0 ∧ y = 0 := by
  constructor
  · intro h
    constructor
    · apply Nat.eq_of_testBit_eq
      intro i
      have := congrArg (fun n => Nat.testBit n i) h
      simp at this
      simp [this.1]
    · apply Nat.eq_of_testBit_eq
      intro i
      have := congrArg (fun n => Nat.testBit n i) h
      simp at this
      simp [this.2]
  · rintro ⟨rfl, rfl⟩
    rfl

theorem mem_iff_encode_and (S : Finset BinderOption) (o : BinderOption) :
    o ∈ S ↔ encode S &&& o.value ≠ 0 := by
  induction S using Finset.induction_on with
  | empty => simp [encode_empty]
  | insert h ih =>
    rename_i a S
    have hne : a.value &&& o.value ||| encode S &&& o.value ≠ 0 ↔
        a.value &&& o.value ≠ 0 ∨ encode S &&& o.value ≠ 0 := by
      rw [Ne, lor_eq_zero_iff, not_and_or]
    rw [encode_insert a S h, Nat.and_distrib_right, Finset.mem_insert, ih, hne,
      value_and_value a o]
    constructor
    · rintro (h1 | h1)
      · exact Or.inl h1.symm
      · exact Or.inr h1
    · rintro (h1 | h1)
      · exact Or.inl h1.symm
      · exact Or.inr h1

theorem value_and_mask (o : BinderOption) : o.value &&& 0x307FF7F = o.value := by
  cases o <;> decide

theorem encode_and_mask (S : Finset BinderOption) : encode S &&& 0x307FF7F = encode S := by
  induction S using Finset.induction_on with
  | empty => simp [encode_empty]
  | insert h ih =>
    rename_i a S
    rw [encode_insert a S h, Nat.and_distrib_right, value_and_mask, ih]

theorem encode_le_mask (S : Finset BinderOption) : encode S ≤ 0x307FF7F := by
  have h := encode_and_mask S
  rw [← h]
  exact Nat.and_le_right

theorem encode_injective (S T : Finset BinderOption) : encode S = encode T ↔ S = T := by
  constructor
  · intro h
    ext o
    rw [mem_iff_encode_and S o, mem_iff_encode_and T o, h]
  · rintro rfl
    rfl

theorem univ_eq_all : (Finset.univ : Finset BinderOption) = allBinderOptions.toFinset := by
  decide

theorem and_one_or_one (F : Nat) : F &&& 1 ||| 1 = 1 := by
  apply Nat.eq_of_testBit_eq
  intro i
  rw [Nat.testBit_or, Nat.testBit_and]
  cases i with
  | zero => simp
  | succ k =>
    have h1 : Nat.testBit 1 (k + 1) = false := by
      cases hb : Nat.testBit 1 (k + 1) with
      | false => rfl
      | true => exact absurd (Nat.testBit_one_eq_true_iff_self_eq_zero.mp hb) (by omega)
    simp [h1]

/-! ## The claims on the binding flags -/

/-- C1: `BINDER_AllLookup` ORs `BINDER_Instance` twice and the repetition changes nothing:
its value is `Instance|Static|Public`, that is 0x1C, the same value as
`BINDER_DefaultLookup`, and the `BINDER_NonPublic` bit 0x20 is not set in it. -/
theorem allLookup_is_literally_defaultLookup :
    BINDER_AllLookup = BINDER_Instance ||| BINDER_Static ||| BINDER_Public ∧
    BINDER_AllLookup = 0x1C ∧
    BINDER_AllLookup = BINDER_DefaultLookup ∧
    BINDER_NonPublic = 0x20 ∧
    BINDER_AllLookup &&& BINDER_NonPublic = 0 ∧
    hasFlag BINDER_AllLookup BINDER_NonPublic = false := by
  decide

/-- C2: `BINDER_DefaultLookup` is exactly `Instance|Static|Public`: its value is 0x1C, an
option bit is set in it exactly when the option is Instance, Static or Public, and the
other seventeen options are all clear. -/
theorem defaultLookup_exact :
    BINDER_DefaultLookup = 0x1C ∧
    BINDER_DefaultLookup = encode {BinderOption.Instance, BinderOption.Static, BinderOption.Public} ∧
    (∀ o : BinderOption, hasFlag BINDER_DefaultLookup o.value = true ↔
      (o = BinderOption.Instance ∨ o = BinderOption.Static ∨ o = BinderOption.Public)) ∧
    allBinderOptions.filter (fun o => hasFlag BINDER_DefaultLookup o.value) =
      [BinderOption.Instance, BinderOption.Static, BinderOption.Public] ∧
    allBinderOptions.filter (fun o => !hasFlag BINDER_DefaultLookup o.value) =
      [BinderOption.IgnoreCase, BinderOption.DeclaredOnly, BinderOption.NonPublic,
       BinderOption.FlattenHierarchy, BinderOption.InvokeMethod, BinderOption.CreateInstance,
       BinderOption.GetField, BinderOption.SetField, BinderOption.GetProperty,
       BinderOption.SetProperty, BinderOption.PutDispProperty,
       BinderOption.PutRefDispProperty, BinderOption.ExactBinding,
       BinderOption.SuppressChangeType, BinderOption.OptionalParamBinding,
       BinderOption.IgnoreReturn, BinderOption.DoNotWrapExceptions] := by
  refine ⟨by decide, by decide, ?_, by decide, by decide⟩
  intro o
  cases o <;> decide

/-- C3: the binding configuration is a faithful bit-set: each of the twenty option
constants is a single power of two, the twenty are pairwise distinct, an option is in a
set exactly when the C test `(n & o) != 0` succeeds on the set's encoding `n`, and two
sets have the same encoding only when they are the same set. -/
theorem binding_configuration_faithful_bitset :
    (∀ o : BinderOption, o.value = 2 ^ o.bit) ∧
    Function.Injective BinderOption.value ∧
    (allBinderOptions.length = 20 ∧ allBinderOptions.Nodup ∧
      ∀ o : BinderOption, o ∈ allBinderOptions) ∧
    (∀ (S : Finset BinderOption) (o : BinderOption),
      o ∈ S ↔ hasFlag (encode S) o.value = true) ∧
    (∀ S T : Finset BinderOption, encode S = encode T ↔ S = T) := by
  refine ⟨?_, ?_, ⟨by decide, by decide, ?_⟩, ?_, encode_injective⟩
  · intro o
    cases o <;> decide
  · intro a b h
    have := (value_and_value a b).mp
    apply this
    rw [h]
    cases b <;> decide
  · intro o
    cases o <;> decide
  · intro S o
    rw [mem_iff_encode_and S o]
    simp [hasFlag]

/-- C4: setting `IgnoreCase` never touches a visibility or kind filter: for every
configuration `F` and every option constant other than `BINDER_IgnoreCase` itself, the
masked bits of `F | BINDER_IgnoreCase` equal those of `F`; bit 0 is the only bit position
at which the two values can differ. -/
theorem ignoreCase_changes_only_bit_zero (F : Nat) :
    (∀ o : BinderOption, (F ||| BINDER_IgnoreCase) &&& o.value =
      if o = BinderOption.IgnoreCase then BINDER_IgnoreCase else F &&& o.value) ∧
    ((F ||| BINDER_IgnoreCase) &&& BINDER_Instance = F &&& BINDER_Instance ∧
     (F ||| BINDER_IgnoreCase) &&& BINDER_Static = F &&& BINDER_Static ∧
     (F ||| BINDER_IgnoreCase) &&& BINDER_Public = F &&& BINDER_Public ∧
     (F ||| BINDER_IgnoreCase) &&& BINDER_NonPublic = F &&& BINDER_NonPublic ∧
     (F ||| BINDER_IgnoreCase) &&& BINDER_DeclaredOnly = F &&& BINDER_DeclaredOnly ∧
     (F ||| BINDER_IgnoreCase) &&& BINDER_FlattenHierarchy = F &&& BINDER_FlattenHierarchy ∧
     (F ||| BINDER_IgnoreCase) &&& BINDER_InvokeMethod = F &&& BINDER_InvokeMethod ∧
     (F ||| BINDER_IgnoreCase) &&& BINDER_CreateInstance = F &&& BINDER_CreateInstance ∧
     (F ||| BINDER_IgnoreCase) &&& BINDER_GetField = F &&& BINDER_GetField ∧
     (F ||| BINDER_IgnoreCase) &&& BINDER_SetField = F &&& BINDER_SetField ∧
     (F ||| BINDER_IgnoreCase) &&& BINDER_GetProperty = F &&& BINDER_GetProperty ∧
     (F ||| BINDER_IgnoreCase) &&& BINDER_SetProperty = F &&& BINDER_SetProperty ∧
     (F ||| BINDER_IgnoreCase) &&& BINDER_PutDispProperty = F &&& BINDER_PutDispProperty ∧
     (F ||| BINDER_IgnoreCase) &&& BINDER_PutRefDispProperty =
       F &&& BINDER_PutRefDispProperty) ∧
    (∀ i : Nat, (F ||| BINDER_IgnoreCase).testBit i = (decide (i = 0) || F.testBit i)) := by
  have key : ∀ o : BinderOption, (F ||| BINDER_IgnoreCase) &&& o.value =
      if o = BinderOption.IgnoreCase then BINDER_IgnoreCase else F &&& o.value := by
    intro o
    rw [Nat.and_distrib_right]
    by_cases ho : o = BinderOption.IgnoreCase
    · subst ho
      rw [if_pos rfl]
      exact and_one_or_one F
    · rw [if_neg ho]
      have hz : BINDER_IgnoreCase &&& o.value = 0 := by
        cases o <;> first | exact absurd rfl ho | decide
      rw [hz, Nat.or_zero]
  refine ⟨key, ⟨?_, ?_, ?_, ?_, ?_, ?_, ?_, ?_, ?_, ?_, ?_, ?_, ?_, ?_⟩, ?_⟩
  · exact key BinderOption.Instance
  · exact key BinderOption.Static
  · exact key BinderOption.Public
  · exact key BinderOption.NonPublic
  · exact key BinderOption.DeclaredOnly
  · exact key BinderOption.FlattenHierarchy
  · exact key BinderOption.InvokeMethod
  · exact key BinderOption.CreateInstance
  · exact key BinderOption.GetField
  · exact key BinderOption.SetField
  · exact key BinderOption.GetProperty
  · exact key BinderOption.SetProperty
  · exact key BinderOption.PutDispProperty
  · exact key BinderOption.PutRefDispProperty
  · intro i
    rw [Nat.testBit_or, Bool.or_comm]
    congr 1
    cases i with
    | zero => rfl
    | succ k =>
      cases hb : Nat.testBit BINDER_IgnoreCase (k + 1) with
      | false => simp
      | true => exact absurd (Nat.testBit_one_eq_true_iff_self_eq_zero.mp hb) (by omega)

/-- C10: every binding configuration fits the signed 32-bit `invokeAttr` parameter below
the sign bit: the OR of all twenty option constants is 0x307FF7F, which is less than
2^31, so the OR of any set of options is at most 0x307FF7F, is unchanged by reduction
modulo 2^32, reads back as the same non-negative `INT32`, and still shows every option
of the set. -/
theorem every_configuration_fits_INT32 :
    encode Finset.univ = 0x307FF7F ∧
    allBinderOptions.foldl (fun n o => n ||| o.value) 0 = 0x307FF7F ∧
    (0x307FF7F : Nat) < 2 ^ 31 ∧
    (∀ S : Finset BinderOption,
      encode S ≤ 0x307FF7F ∧ encode S < 2 ^ 31 ∧ encode S % 2 ^ 32 = encode S ∧
      0 ≤ toINT32 (encode S) ∧ toINT32 (encode S) = (encode S : Int) ∧
      ∀ o : BinderOption, o ∈ S ↔ hasFlag ((toINT32 (encode S)).toNat) o.value = true) := by
  refine ⟨?_, by decide, by decide, ?_⟩
  · rw [univ_eq_all]
    decide
  · intro S
    have hle := encode_le_mask S
    have hlt : encode S < 2 ^ 31 := by omega
    have hmod : encode S % 2 ^ 32 = encode S := Nat.mod_eq_of_lt (by omega)
    have hint : toINT32 (encode S) = (encode S : Int) := by
      unfold toINT32
      rw [hmod, if_pos hlt]
    refine ⟨hle, hlt, hmod, ?_, hint, ?_⟩
    · rw [hint]
      exact Int.ofNat_nonneg _
    · intro o
      rw [hint, Int.toNat_ofNat, mem_iff_encode_and S o]
      simp [hasFlag]

/-! ## The enum extractor -/

theorem insertEntry_perm (e : EnumEntry) (l : List EnumEntry) :
    (insertEntry e l).Perm (e :: l) := by
  induction l with
  | nil => exact List.Perm.refl _
  | cons x xs ih =>
    unfold insertEntry
    split
    · exact List.Perm.refl _
    · exact (List.Perm.cons x ih).trans (List.Perm.swap e x xs)

theorem sortEntries_perm (l : List EnumEntry) : (sortEntries l).Perm l := by
  induction l with
  | nil => exact List.Perm.refl _
  | cons e es ih =>
    unfold sortEntries
    exact (insertEntry_perm e (sortEntries es)).trans (List.Perm.cons e ih)

theorem insertEntry_ascending (e : EnumEntry) (l : List EnumEntry)
    (h : AscendingByValue l) : AscendingByValue (insertEntry e l) := by
  induction l with
  | nil => simp [insertEntry, AscendingByValue]
  | cons x xs ih =>
    unfold AscendingByValue at h ih ⊢
    rw [List.pairwise_cons] at h
    unfold insertEntry
    split
    · rename_i hle
      rw [List.pairwise_cons, List.pairwise_cons]
      refine ⟨?_, h.1, h.2⟩
      intro b hb
      rcases List.mem_cons.mp hb with rfl | hb
      · exact hle
      · exact le_trans hle (h.1 b hb)
    · rename_i hnle
      rw [List.pairwise_cons]
      refine ⟨?_, ih h.2⟩
      intro b hb
      have hb2 : b ∈ e :: xs := (insertEntry_perm e xs).subset hb
      rcases List.mem_cons.mp hb2 with rfl | hb2
      · omega
      · exact h.1 b hb2

theorem sortEntries_ascending (l : List EnumEntry) : AscendingByValue (sortEntries l) := by
  induction l with
  | nil => simp [sortEntries, AscendingByValue]
  | cons e es ih =>
    unfold sortEntries
    exact insertEntry_ascending e _ ih

theorem entriesWithValue_cons (v : Int) (x : EnumEntry) (l : List EnumEntry) :
    entriesWithValue v (x :: l) =
      if x.value = v then x :: entriesWithValue v l else entriesWithValue v l := by
  unfold entriesWithValue
  by_cases h : x.value = v <;> simp [List.filter_cons, h]

theorem insertEntry_stable (v : Int) (e : EnumEntry) (l : List EnumEntry) :
    entriesWithValue v (insertEntry e l) = entriesWithValue v (e :: l) := by
  induction l with
  | nil => rfl
  | cons x xs ih =>
    unfold insertEntry
    split
    · rfl
    · rename_i hnle
      rw [entriesWithValue_cons v x, ih, entriesWithValue_cons v e,
        entriesWithValue_cons v e, entriesWithValue_cons v x]
      by_cases hx : x.value = v
      · by_cases he : e.value = v
        · omega
        · simp [hx, he]
      · simp [hx]

theorem sortEntries_stable (v : Int) (l : List EnumEntry) :
    entriesWithValue v (sortEntries l) = entriesWithValue v l := by
  induction l with
  | nil => rfl
  | cons e es ih =>
    unfold sortEntries
    rw [insertEntry_stable, entriesWithValue_cons, ih, entriesWithValue_cons]

theorem zipWith_value_name (l : List EnumEntry) :
    List.zipWith EnumEntry.mk (l.map EnumEntry.value) (l.map EnumEntry.name) = l := by
  induction l with
  | nil => rfl
  | cons x xs ih => simp [List.zipWith, ih]

theorem returnedPairs_eq (l : List EnumEntry) :
    returnedPairs (Enum_GetValuesAndNames l true) = sortEntries l := by
  simp [returnedPairs, Enum_GetValuesAndNames, zipWith_value_name]

/-- C5: for every enumeration type, given by its entries in declaration order,
`Enum_GetValuesAndNames` returns the (value, name) pairs ascending by underlying value,
entries of equal value in declaration order, the result a permutation of the entries;
on the entries (0,"None"), (2,"Two"), (1,"One") it returns (0,"None"), (1,"One"),
(2,"Two"). -/
theorem Enum_GetValuesAndNames_sorted_stable (pEnumType : List EnumEntry) :
    AscendingByValue (returnedPairs (Enum_GetValuesAndNames pEnumType true)) ∧
    (∀ v : Int, entriesWithValue v (returnedPairs (Enum_GetValuesAndNames pEnumType true)) =
      entriesWithValue v pEnumType) ∧
    (returnedPairs (Enum_GetValuesAndNames pEnumType true)).Perm pEnumType ∧
    returnedPairs (Enum_GetValuesAndNames [⟨0, "None"⟩, ⟨2, "Two"⟩, ⟨1, "One"⟩] true) =
      [⟨0, "None"⟩, ⟨1, "One"⟩, ⟨2, "Two"⟩] := by
  rw [returnedPairs_eq]
  exact ⟨sortEntries_ascending pEnumType, fun v => sortEntries_stable v pEnumType,
    sortEntries_perm pEnumType, by decide⟩

/-! ## The initialization coordinator -/

theorem runClassConstructor_failed (caller : ThreadId) (initializer : StaticInitializer)
    (c : Cause) (runs : Nat) :
    ReflectionInvocation_RunClassConstructor caller initializer ⟨.Failed c, runs⟩ =
      (⟨.Failed c, runs⟩, .TypeInitializationFailed c) := rfl

theorem runCalls_failed (c : Cause) (runs : Nat)
    (later : List (ThreadId × StaticInitializer)) :
    runCalls ⟨.Failed c, runs⟩ later =
      (⟨.Failed c, runs⟩, List.replicate later.length (.TypeInitializationFailed c)) := by
  induction later with
  | nil => rfl
  | cons call rest ih =>
    obtain ⟨caller, initializer⟩ := call
    simp only [runCalls, runClassConstructor_failed, ih, List.length_cons,
      List.replicate_succ]

/-- C6: `Failed` is permanent. When the static initializer of a not-started type fails
with cause `c` on the first call, that call leaves the type `Failed c` and reports `c`,
and every later sequence of `ReflectionInvocation_RunClassConstructor` calls on the type,
by any threads and with any initializers, leaves the state `Failed c`, leaves the count
of initializer executions where the first call left it, and reports the cause `c` from
every call. -/
theorem failed_is_permanent (caller : ThreadId) (initializer : StaticInitializer)
    (runs : Nat) (c : Cause)
    (hfail : initializer ⟨.InProgress caller, runs⟩ = .error c)
    (later : List (ThreadId × StaticInitializer)) :
    ReflectionInvocation_RunClassConstructor caller initializer ⟨.NotStarted, runs⟩ =
      (⟨.Failed c, runs + 1⟩, .TypeInitializationFailed c) ∧
    runCalls
        (ReflectionInvocation_RunClassConstructor caller initializer ⟨.NotStarted, runs⟩).1
        later =
      (⟨.Failed c, runs + 1⟩, List.replicate later.length (.TypeInitializationFailed c)) := by
  have first : ReflectionInvocation_RunClassConstructor caller initializer
      ⟨.NotStarted, runs⟩ = (⟨.Failed c, runs + 1⟩, .TypeInitializationFailed c) := by
    simp only [ReflectionInvocation_RunClassConstructor, EnsureInitialized, hfail]
  refine ⟨first, ?_⟩
  rw [first]
  exact runCalls_failed c (runs + 1) later

/-- C6 at a concrete input: thread 1 runs an initializer that fails with "boom"; a later
call by thread 2 with an initializer that would succeed and a retry by thread 1 with one
that would fail differently both report "boom", and the initializer has run once. -/
theorem failed_is_permanent_witness :
    runCalls
        (ReflectionInvocation_RunClassConstructor 1 (fun _ => .error "boom")
          ⟨.NotStarted, 0⟩).1
        [(2, fun _ => .ok ()), (1, fun _ => .error "other")] =
      (⟨.Failed "boom", 1⟩,
        [.TypeInitializationFailed "boom", .TypeInitializationFailed "boom"]) :=
  (failed_is_permanent 1 (fun _ => .error "boom") 0 "boom" rfl
    [(2, fun _ => .ok ()), (1, fun _ => .error "other")]).2

end ReflectionInvocation

namespace CompressionNative

/-! ## The entry-point table -/

theorem resolve_of_not_mem (table : List Entry) (n : Nat) (name : String)
    (h : name ∉ tableNames table) : ResolveDllImport table n name = FnPtr.null := by
  induction table generalizing n with
  | nil => cases n <;> rfl
  | cons e rest ih =>
    cases n with
    | zero => rfl
    | succ k =>
      have hne : name ≠ e.name := fun heq => h (by simp [tableNames, heq])
      have hrest : name ∉ tableNames rest := fun hm =>
        h (by simp only [tableNames, List.map_cons, List.mem_cons]; exact Or.inr hm)
      simp only [ResolveDllImport, if_neg hne]
      exact ih k hrest

theorem resolve_of_mem (table : List Entry) (hnd : (tableNames table).Nodup)
    (e : Entry) (he : e ∈ table) :
    ResolveDllImport table (lengthof table) e.name = e.method := by
  induction table with
  | nil => cases he
  | cons x rest ih =>
    simp only [tableNames, List.map_cons, List.nodup_cons] at hnd
    simp only [lengthof, List.length_cons, ResolveDllImport]
    rcases List.mem_cons.mp he with rfl | hmem
    · rw [if_pos rfl]
    · have hne : e.name ≠ x.name := fun heq =>
        hnd.1 (heq ▸ List.mem_map_of_mem Entry.name hmem)
      rw [if_neg hne]
      exact ih hnd.2 hmem

theorem all_rows_are_DllImportEntry :
    ∀ e ∈ s_compressionNative, e.method = FnPtr.fn e.name := by
  have h : s_compressionNative.all (fun e => decide (e.method = FnPtr.fn e.name)) = true := by
    decide
  intro e he
  exact of_decide_eq_true (List.all_eq_true.mp h e he)

theorem names_nodup : (tableNames s_compressionNative).Nodup := by
  decide

theorem count_le_one_of_nodup (table : List Entry) (hnd : (tableNames table).Nodup)
    (name : String) : (table.filter (fun e => e.name = name)).length ≤ 1 := by
  induction table with
  | nil => simp
  | cons x rest ih =>
    simp only [tableNames, List.map_cons, List.nodup_cons] at hnd
    by_cases hx : x.name = name
    · have hnone : rest.filter (fun e => e.name = name) = [] := by
        rw [List.filter_eq_nil_iff]
        intro a ha hname
        have hname2 : a.name = name := by simpa using hname
        exact hnd.1 (by rw [hx, ← hname2]; exact List.mem_map_of_mem Entry.name ha)
      simp [List.filter_cons, hx, hnone]
    · simp only [List.filter_cons, hx, decide_False]
      exact ih hnd.2

/-- C8: `CompressionResolveDllImport` is a flat lookup over the 69 rows of
`s_compressionNative`: with `ResolveDllImport` a first-match search by exact name, a name
listed in the table resolves to the pointer of the function of that same name and any
other name resolves to null; "ZSTD_isError" resolves to that function and the
differently cased "zstd_iserror" does not resolve. -/
theorem CompressionResolveDllImport_flat_lookup :
    lengthof s_compressionNative = 69 ∧
    (∀ name : String, CompressionResolveDllImport name =
      if name ∈ tableNames s_compressionNative then FnPtr.fn name else FnPtr.null) ∧
    CompressionResolveDllImport "ZSTD_isError" = FnPtr.fn "ZSTD_isError" ∧
    CompressionResolveDllImport "zstd_iserror" = FnPtr.null := by
  refine ⟨by decide, ?_, by decide, by decide⟩
  intro name
  by_cases h : name ∈ tableNames s_compressionNative
  · rw [if_pos h]
    obtain ⟨e, he, rfl⟩ := List.mem_map.mp h
    unfold CompressionResolveDllImport
    rw [resolve_of_mem s_compressionNative names_nodup e he]
    exact all_rows_are_DllImportEntry e he
  · rw [if_neg h]
    exact resolve_of_not_mem s_compressionNative _ name h

/-- C9: the 69 names of `s_compressionNative` are pairwise distinct, so for every name at
most one row matches, and searching any reordering of the table resolves every name to
the same pointer as `CompressionResolveDllImport`. -/
theorem s_compressionNative_names_distinct :
    (tableNames s_compressionNative).length = 69 ∧
    (tableNames s_compressionNative).Nodup ∧
    (∀ name : String,
      (s_compressionNative.filter (fun e => e.name = name)).length ≤ 1) ∧
    (∀ reordered : List Entry, reordered.Perm s_compressionNative →
      ∀ name : String,
        ResolveDllImport reordered (lengthof reordered) name =
          CompressionResolveDllImport name) := by
  refine ⟨by decide, names_nodup, count_le_one_of_nodup _ names_nodup, ?_⟩
  intro reordered hperm name
  have hnd : (tableNames reordered).Nodup :=
    (List.Perm.nodup_iff (hperm.map Entry.name)).mpr names_nodup
  unfold CompressionResolveDllImport
  by_cases h : name ∈ tableNames s_compressionNative
  · obtain ⟨e, he, rfl⟩ := List.mem_map.mp h
    rw [resolve_of_mem s_compressionNative names_nodup e he,
      resolve_of_mem reordered hnd e (hperm.symm.subset he)]
  · have h2 : name ∉ tableNames reordered := fun hm =>
      h ((hperm.map Entry.name).subset hm)
    rw [resolve_of_not_mem _ _ name h, resolve_of_not_mem _ _ name h2]

/-- C9 at a concrete reordering: searching the table back to front resolves
"ZSTD_isError" to the same pointer as `CompressionResolveDllImport`. -/
theorem s_compressionNative_names_distinct_witness :
    ResolveDllImport s_compressionNative.reverse (lengthof s_compressionNative.reverse)
        "ZSTD_isError" =
      CompressionResolveDllImport "ZSTD_isError" :=
  s_compressionNative_names_distinct.2.2.2 s_compressionNative.reverse
    (List.reverse_perm s_compressionNative) "ZSTD_isError"

end CompressionNative
